import Mathlib

/-!
Verification of the transaction state and derived-aggregation layer of the
personal finance ledger.  The definitions below are a shallow embedding of
the TypeScript source: `src/App.tsx` (store mutations, totals, sorting,
day grouping, persistence load), `src/components/TransactionItem.tsx`
(StatsChart aggregations: category breakdown, monthly series, net-asset
trend) and the static category catalog / type declarations.

Modelling conventions:
* JavaScript numbers are idealised as exact rationals.  `NaN`, where it can
  arise at an input boundary, is modelled explicitly (`Option` with `none`
  for `NaN`, or a dedicated constructor).
* A transaction date is stored in the source as an ISO string and is only
  ever observed through `new Date(s)` as `getFullYear / getMonth / getDate /
  getTime`.  It is embedded as the parsed local instant `LocalDate`;
  `LocalDate.getTime` is an order-isomorphic encoding of the instant
  (epoch milliseconds in the source).
* `Array.prototype.sort` with a comparator is, per ES2019, a stable
  comparison sort; it is embedded as `List.insertionSort` over the
  relation `comparator a b <= 0`, which is a stable comparison sort.
  Every property proved below depends only on sortedness and on the
  result being a permutation, never on which stable order is produced.
-/

/-- `TransactionType` from `src/unnamed/part_001` (types). -/
inductive TransactionType where
  | EXPENSE
  | INCOME
deriving DecidableEq, Repr

/-- The local calendar instant of a transaction date, as observed through
`getFullYear` (year), `getMonth` (0-11), `getDate` (day of month) and the
sub-day time.  `getMonth` always returns a value in `0..11`, hence
`Fin 12`. -/
structure LocalDate where
  year : Nat
  month : Fin 12
  day : Nat
  minuteOfDay : Nat
deriving DecidableEq, Repr

/-- Order-isomorphic encoding of the instant, standing for
`new Date(s).getTime()` (epoch milliseconds in the source). -/
def LocalDate.getTime (d : LocalDate) : Nat :=
  ((d.year * 12 + d.month.val) * 32 + d.day) * 1440 + d.minuteOfDay

/-- `Transaction` from `src/unnamed/part_001` (types). -/
structure Transaction where
  id : String
  amount : ℚ
  categoryId : String
  date : LocalDate
  note : String
  type : TransactionType
deriving DecidableEq, Repr

/-- `Category` from `src/unnamed/part_001` (types); the icon reference and
color token play no role in any claim but are kept for faithfulness. -/
structure Category where
  id : String
  name : String
  icon : String
  color : String
  type : TransactionType
deriving DecidableEq, Repr

/-- `EXPENSE_CATEGORIES` from `src/unnamed/part_000` (constants). -/
def EXPENSE_CATEGORIES : List Category := [
  ⟨"food", "Food & Dining", "Utensils", "bg-orange-100 text-orange-600", .EXPENSE⟩,
  ⟨"shopping", "Shopping", "ShoppingBag", "bg-pink-100 text-pink-600", .EXPENSE⟩,
  ⟨"transport", "Transport", "Car", "bg-blue-100 text-blue-600", .EXPENSE⟩,
  ⟨"housing", "Housing", "Home", "bg-indigo-100 text-indigo-600", .EXPENSE⟩,
  ⟨"utilities", "Utilities", "Zap", "bg-yellow-100 text-yellow-600", .EXPENSE⟩,
  ⟨"health", "Health", "HeartPulse", "bg-red-100 text-red-600", .EXPENSE⟩,
  ⟨"entertainment", "Entertainment", "Clapperboard", "bg-purple-100 text-purple-600", .EXPENSE⟩,
  ⟨"education", "Education", "GraduationCap", "bg-cyan-100 text-cyan-600", .EXPENSE⟩,
  ⟨"travel", "Travel", "Plane", "bg-sky-100 text-sky-600", .EXPENSE⟩,
  ⟨"social", "Social", "Gift", "bg-rose-100 text-rose-600", .EXPENSE⟩,
  ⟨"coffee", "Coffee", "Coffee", "bg-amber-100 text-amber-700", .EXPENSE⟩,
  ⟨"tech", "Digital", "Smartphone", "bg-gray-100 text-gray-600", .EXPENSE⟩]

/-- `INCOME_CATEGORIES` from `src/unnamed/part_000` (constants). -/
def INCOME_CATEGORIES : List Category := [
  ⟨"salary", "Salary", "Briefcase", "bg-emerald-100 text-emerald-600", .INCOME⟩,
  ⟨"investment", "Investment", "BadgeDollarSign", "bg-green-100 text-green-600", .INCOME⟩,
  ⟨"other_income", "Other", "Wallet", "bg-teal-100 text-teal-600", .INCOME⟩]

/-- `ALL_CATEGORIES` from `src/unnamed/part_000` (constants). -/
def ALL_CATEGORIES : List Category := EXPENSE_CATEGORIES ++ INCOME_CATEGORIES

/-- `totalBalance` (`src/App.tsx` line 133): a single reduce that adds
income amounts and subtracts expense amounts, starting from 0. -/
def totalBalance (transactions : List Transaction) : ℚ :=
  transactions.foldl
    (fun acc t => if t.type = TransactionType.INCOME then acc + t.amount else acc - t.amount) 0

/-- `totalIncome` (`src/App.tsx` line 134): filter to INCOME then sum. -/
def totalIncome (transactions : List Transaction) : ℚ :=
  (transactions.filter (fun t => t.type = TransactionType.INCOME)).foldl
    (fun acc t => acc + t.amount) 0

/-- `totalExpense` (`src/App.tsx` line 135): filter to EXPENSE then sum. -/
def totalExpense (transactions : List Transaction) : ℚ :=
  (transactions.filter (fun t => t.type = TransactionType.EXPENSE)).foldl
    (fun acc t => acc + t.amount) 0

/-- The signed value of a transaction: income counts positively, expense
negatively.  Specification-side shorthand used in theorem statements. -/
def signedAmount (t : Transaction) : ℚ :=
  if t.type = TransactionType.INCOME then t.amount else -t.amount

theorem totalBalance_shift (transactions : List Transaction) (a : ℚ) :
    transactions.foldl
      (fun acc t => if t.type = TransactionType.INCOME then acc + t.amount else acc - t.amount) a
      = a + totalBalance transactions := by
  induction transactions generalizing a with
  | nil => simp [totalBalance]
  | cons t ts ih =>
    simp only [totalBalance, List.foldl_cons]
    by_cases h : t.type = TransactionType.INCOME
    · rw [if_pos h, if_pos h, ih (a + t.amount), ih (0 + t.amount)]; ring
    · rw [if_neg h, if_neg h, ih (a - t.amount), ih (0 - t.amount)]; ring

theorem sumfold_shift (l : List Transaction) (a : ℚ) :
    l.foldl (fun acc t => acc + t.amount) a = a + l.foldl (fun acc t => acc + t.amount) 0 := by
  induction l generalizing a with
  | nil => simp
  | cons t ts ih =>
    simp only [List.foldl_cons]
    rw [ih (a + t.amount), ih (0 + t.amount)]
    ring

theorem foldl_add_eq_sum (l : List Transaction) :
    l.foldl (fun acc t => acc + t.amount) 0 = (l.map (fun t => t.amount)).sum := by
  induction l with
  | nil => simp
  | cons t ts ih =>
    simp only [List.foldl_cons, List.map_cons, List.sum_cons]
    rw [sumfold_shift, ih]
    ring

theorem totalIncome_eq_sum (l : List Transaction) :
    totalIncome l
      = ((l.filter (fun t => t.type = TransactionType.INCOME)).map (fun t => t.amount)).sum :=
  foldl_add_eq_sum _

theorem totalExpense_eq_sum (l : List Transaction) :
    totalExpense l
      = ((l.filter (fun t => t.type = TransactionType.EXPENSE)).map (fun t => t.amount)).sum :=
  foldl_add_eq_sum _

theorem totalIncome_cons (t : Transaction) (ts : List Transaction) :
    totalIncome (t :: ts)
      = (if t.type = TransactionType.INCOME then t.amount else 0) + totalIncome ts := by
  rw [totalIncome_eq_sum, totalIncome_eq_sum, List.filter_cons]
  by_cases h : t.type = TransactionType.INCOME
  · simp [h]
  · simp [h]

theorem totalExpense_cons (t : Transaction) (ts : List Transaction) :
    totalExpense (t :: ts)
      = (if t.type = TransactionType.EXPENSE then t.amount else 0) + totalExpense ts := by
  rw [totalExpense_eq_sum, totalExpense_eq_sum, List.filter_cons]
  by_cases h : t.type = TransactionType.EXPENSE
  · simp [h]
  · simp [h]

theorem totalBalance_cons (t : Transaction) (ts : List Transaction) :
    totalBalance (t :: ts) = signedAmount t + totalBalance ts := by
  simp only [totalBalance, signedAmount, List.foldl_cons]
  by_cases h : t.type = TransactionType.INCOME
  · rw [if_pos h, if_pos h, totalBalance_shift]
    simp only [totalBalance]
    ring
  · rw [if_neg h, if_neg h, totalBalance_shift]
    simp only [totalBalance]
    ring

/-- C5: for every transaction list, `income` is the sum of INCOME amounts,
`expense` the sum of EXPENSE amounts, `balance = income - expense` exactly,
and the empty list yields all three equal to zero. -/
theorem totals_correct (transactions : List Transaction) :
    totalBalance transactions = totalIncome transactions - totalExpense transactions ∧
    totalIncome transactions
      = ((transactions.filter (fun t => t.type = TransactionType.INCOME)).map
          (fun t => t.amount)).sum ∧
    totalExpense transactions
      = ((transactions.filter (fun t => t.type = TransactionType.EXPENSE)).map
          (fun t => t.amount)).sum ∧
    totalBalance [] = 0 ∧ totalIncome [] = 0 ∧ totalExpense [] = 0 := by
  refine ⟨?_, totalIncome_eq_sum _, totalExpense_eq_sum _, rfl, rfl, rfl⟩
  induction transactions with
  | nil => simp [totalBalance, totalIncome, totalExpense]
  | cons t ts ih =>
    rw [totalBalance_cons, totalIncome_cons, totalExpense_cons, ih]
    cases ht : t.type <;> simp [signedAmount, ht] <;> ring

/-- The value stored by the budget input handler (`src/App.tsx` lines
753-758): `const val = parseFloat(e.target.value); ... isNaN(val) ? 0 : val`.
The parsed input is `none` when `parseFloat` returned `NaN`. -/
def budgetInputValue (val : Option ℚ) : ℚ :=
  match val with
  | none => 0
  | some v => v

/-- The budget map update performed by the same handler:
`setBudgets(prev => (...prev, [cat.id]: isNaN(val) ? 0 : val))` - an object
spread that keeps every other key and sets the one category key.  The map
is an association list; an existing key keeps its position, a new key is
appended, matching JavaScript object key order. -/
def setBudget (budgets : List (String × ℚ)) (categoryId : String) (val : Option ℚ) :
    List (String × ℚ) :=
  match budgets with
  | [] => [(categoryId, budgetInputValue val)]
  | (k, v) :: rest =>
      if k = categoryId then (k, budgetInputValue val) :: rest
      else (k, v) :: setBudget rest categoryId val

/-- Budget map lookup (reading `budgets[cat.id]`). -/
def lookupBudget (budgets : List (String × ℚ)) (categoryId : String) : Option ℚ :=
  match budgets with
  | [] => none
  | (k, v) :: rest => if k = categoryId then some v else lookupBudget rest categoryId

/-- The value stored by the savings-goal input handler (`src/App.tsx` lines
820-823): `setSavingsGoal(isNaN(val) ? 0 : val)` - the same map of parsed
input to stored value as the budget handler. -/
def savingsGoalInputValue (val : Option ℚ) : ℚ :=
  budgetInputValue val

/-- C2 counterexample: the claim says an input that is NaN *or negative* is
stored as exactly 0.  Setting the food budget to -5 stores -5, not 0. -/
theorem setBudget_negative_not_clamped :
    ¬ (lookupBudget (setBudget [] "food" (some (-5))) "food" = some 0) ∧
    lookupBudget (setBudget [] "food" (some (-5))) "food" = some (-5) ∧
    savingsGoalInputValue (some (-5)) = -5 := by
  refine ⟨?_, rfl, rfl⟩
  intro h
  simp [setBudget, lookupBudget, budgetInputValue] at h

/-- C2 (amended): `setBudget` stores 0 for a NaN input and stores any
numeric input - including a negative one - unchanged; it never rejects the
map: every other key keeps its previous value.  `setSavingsGoal` follows
the same policy (NaN becomes 0, numeric values including negatives are
stored as given). -/
theorem setBudget_nan_to_zero_others_preserved
    (budgets : List (String × ℚ)) (categoryId : String) (val : Option ℚ) :
    lookupBudget (setBudget budgets categoryId val) categoryId = some (budgetInputValue val) ∧
    (∀ k, k ≠ categoryId →
      lookupBudget (setBudget budgets categoryId val) k = lookupBudget budgets k) ∧
    budgetInputValue none = 0 ∧
    (∀ q : ℚ, budgetInputValue (some q) = q) ∧
    savingsGoalInputValue none = 0 ∧
    (∀ q : ℚ, savingsGoalInputValue (some q) = q) := by
  refine ⟨?_, ?_, rfl, fun _ => rfl, rfl, fun _ => rfl⟩
  · induction budgets with
    | nil => simp [setBudget, lookupBudget]
    | cons p rest ih =>
      obtain ⟨k, v⟩ := p
      by_cases h : k = categoryId
      · simp [setBudget, lookupBudget, h]
      · simp [setBudget, lookupBudget, h, ih]
  · intro k hk
    induction budgets with
    | nil =>
      simp [setBudget, lookupBudget, Ne.symm hk]
    | cons p rest ih =>
      obtain ⟨k2, v⟩ := p
      by_cases h : k2 = categoryId
      · subst h
        simp [setBudget, lookupBudget, Ne.symm hk]
      · by_cases h2 : k2 = k <;> simp [setBudget, lookupBudget, h, h2, hk, ih]

/-- C2 witness: the amended theorem applied at a concrete map, category and
negative input. -/
theorem setBudget_nan_to_zero_others_preserved_witness :
    lookupBudget (setBudget [("food", 3)] "travel" (some (-2))) "travel" = some (-2) ∧
    lookupBudget (setBudget [("food", 3)] "travel" (some (-2))) "food" = some 3 ∧
    budgetInputValue none = 0 := by
  have h := setBudget_nan_to_zero_others_preserved [("food", 3)] "travel" (some (-2))
  exact ⟨h.1, h.2.1 "food" (by decide), h.2.2.1⟩

/-- The state of the amount form field as `handleSaveTransaction` sees it
(`src/App.tsx` line 345).  `empty` is the empty string (falsy, and
`parseFloat` of it is NaN), `nanStr` is a non-empty string on which
`parseFloat` returns NaN, `num q` is a string parsing to the number `q`. -/
inductive AmountField where
  | empty
  | nanStr
  | num (q : ℚ)
deriving DecidableEq, Repr

/-- `parseFloat(amount)`: `none` models NaN. -/
def parseFloatAmount (a : AmountField) : Option ℚ :=
  match a with
  | .empty => none
  | .nanStr => none
  | .num q => some q

/-- The early-return guard of `handleSaveTransaction` (`src/App.tsx` line
345): `if (!amount || parseFloat(amount) <= 0) return;`.  `!amount` is true
exactly for the empty string, and the JavaScript comparison `NaN <= 0`
evaluates to false, so a non-empty non-numeric amount is NOT rejected. -/
def saveGuardRejects (a : AmountField) : Bool :=
  match a with
  | .empty => true
  | .nanStr => false
  | .num q => decide (q ≤ 0)

/-- The create branch of `handleSaveTransaction` (`src/App.tsx` lines
344-375, `editingTransaction = null`): if the guard does not fire, a new
transaction is built from the form fields with a fresh id and prepended to
the previous list (`setTransactions(prev => [newTransaction, ...prev])`).
When the amount field is `.nanStr` the source stores the amount `NaN`,
which has no rational counterpart; `(parseFloatAmount a).getD 0` makes the
record total with `0` as the stand-in.  No theorem below relies on the
stored amount in that branch - only on the fact that a record is
prepended at all. -/
def handleSaveTransactionCreate (a : AmountField) (categoryId : String) (date : LocalDate)
    (note : String) (type : TransactionType) (freshId : String)
    (prev : List Transaction) : List Transaction :=
  if saveGuardRejects a then prev
  else { id := freshId, amount := (parseFloatAmount a).getD 0, categoryId := categoryId,
         date := date, note := note, type := type } :: prev

/-- A concrete date used by closed evaluation theorems. -/
def sampleDate : LocalDate := ⟨2024, ⟨0, by decide⟩, 1, 540⟩

/-- C3: the guard rejects the empty amount and any amount parsing to a
non-positive number (the list is unchanged), and a positive amount is
prepended as a new head transaction with the given fields and fresh id,
leaving the existing transactions untouched.  However, contrary to the
claim, a non-empty amount string that is not a number (`parseFloat`
returns NaN) is NOT rejected - `NaN <= 0` is false in JavaScript - and a
transaction is created anyway, so the create operation is not a no-op on
every input whose amount is not a positive number. -/
theorem handleSaveTransactionCreate_nan_admitted :
    saveGuardRejects .empty = true ∧
    saveGuardRejects (.num 0) = true ∧
    saveGuardRejects (.num (-3)) = true ∧
    (∀ (cid : String) (d : LocalDate) (n : String) (ty : TransactionType) (fid : String)
       (prev : List Transaction),
       handleSaveTransactionCreate .empty cid d n ty fid prev = prev ∧
       handleSaveTransactionCreate (.num 0) cid d n ty fid prev = prev ∧
       handleSaveTransactionCreate (.num (-3)) cid d n ty fid prev = prev) ∧
    saveGuardRejects .nanStr = false ∧
    (handleSaveTransactionCreate .nanStr "food" sampleDate "" .EXPENSE "1700000000000" []).length
      = 1 ∧
    (∀ (q : ℚ) (cid : String) (d : LocalDate) (n : String) (ty : TransactionType) (fid : String)
       (prev : List Transaction), 0 < q →
       handleSaveTransactionCreate (.num q) cid d n ty fid prev
         = { id := fid, amount := q, categoryId := cid, date := d, note := n,
             type := ty } :: prev) := by
  refine ⟨rfl, by decide, by decide, ?_, rfl, rfl, ?_⟩
  · intro cid d n ty fid prev
    refine ⟨rfl, ?_, ?_⟩ <;>
      simp [handleSaveTransactionCreate, saveGuardRejects]
  · intro q cid d n ty fid prev hq
    have h : saveGuardRejects (.num q) = false := by
      simp [saveGuardRejects]
      linarith
    simp [handleSaveTransactionCreate, h, parseFloatAmount]

/-- C3 witness: the guard evaluated at concrete inputs, and the theorem
applied at a concrete positive amount. -/
theorem handleSaveTransactionCreate_nan_admitted_witness :
    handleSaveTransactionCreate (.num 5) "food" sampleDate "lunch" .EXPENSE "42" []
      = [{ id := "42", amount := 5, categoryId := "food", date := sampleDate, note := "lunch",
           type := .EXPENSE }] := by
  have h := handleSaveTransactionCreate_nan_admitted
  exact h.2.2.2.2.2.2 5 "food" sampleDate "lunch" .EXPENSE "42" [] (by norm_num)

/-- A stored JSON entry as seen by the load effect: either well-formed
(parsing to a value of the expected shape) or malformed (its `JSON.parse`
throws). -/
inductive StoredJson (α : Type) where
  | wellFormed (a : α)
  | malformed
deriving DecidableEq, Repr

/-- The transactions branch of the load effect (`src/App.tsx` lines 79-86):
`none` models a missing entry (the effect then leaves the initial state
`[]`), a malformed entry is caught, logged and also leaves `[]`. -/
def loadTransactions (stored : Option (StoredJson (List Transaction))) : List Transaction :=
  match stored with
  | none => []
  | some (.wellFormed l) => l
  | some .malformed => []

/-- The budgets branch of the load effect (`src/App.tsx` lines 88-95);
missing or malformed leaves the initial empty map. -/
def loadBudgets (stored : Option (StoredJson (List (String × ℚ)))) : List (String × ℚ) :=
  match stored with
  | none => []
  | some (.wellFormed m) => m
  | some .malformed => []

/-- The stored savings-goal string as `parseFloat` sees it: it either
parses to a number or it does not (`parseFloat` returns NaN; it never
throws).  The empty string is falsy and is skipped by `if (savedGoal)`
exactly like a missing entry, so it is folded into `none` below. -/
inductive GoalString where
  | numeric (q : ℚ)
  | nonNumeric
deriving DecidableEq, Repr

/-- The savings-goal branch of the load effect (`src/App.tsx` lines
97-104): `setSavingsGoal(parseFloat(savedGoal))` inside a `try` block.
`parseFloat` never throws, so the `catch` is dead code: a non-numeric
stored string makes the in-memory goal `NaN` (modelled as `none`), not the
default 0.  A missing entry leaves the initial state 0. -/
def loadSavingsGoal (stored : Option GoalString) : Option ℚ :=
  match stored with
  | none => some 0
  | some (.numeric q) => some q
  | some .nonNumeric => none

/-- `Language` from `src/unnamed/part_001` (types); named `AppLanguage` here
to avoid clashing with a Mathlib name. -/
inductive AppLanguage where
  | en
  | de
  | zh
deriving DecidableEq, Repr

/-- The language branch of the load effect (`src/App.tsx` lines 106-109):
the stored string is accepted only if it is one of en, de, zh; anything
else (or a missing entry) leaves the initial state en. -/
def loadLanguage (stored : Option String) : AppLanguage :=
  match stored with
  | none => .en
  | some s =>
      if s = "en" then .en
      else if s = "de" then .de
      else if s = "zh" then .zh
      else .en

/-- C4: load substitutes the safe default for missing or malformed
transactions, budgets and language entries without failing, but - contrary
to the claim - a stored savings-goal string that is not numeric does NOT
result in the in-memory goal 0: `parseFloat` never throws, the `catch`
around it is dead code, and the goal becomes `NaN` (modelled `none`). -/
theorem load_defaults_and_goal_nan :
    loadTransactions none = [] ∧
    loadTransactions (some .malformed) = [] ∧
    (∀ l, loadTransactions (some (.wellFormed l)) = l) ∧
    loadBudgets none = [] ∧
    loadBudgets (some .malformed) = [] ∧
    loadSavingsGoal none = some 0 ∧
    (∀ q, loadSavingsGoal (some (.numeric q)) = some q) ∧
    loadLanguage (some "xx") = .en ∧
    loadLanguage none = .en ∧
    loadLanguage (some "de") = .de ∧
    loadSavingsGoal (some .nonNumeric) = none ∧
    ¬ loadSavingsGoal (some .nonNumeric) = some 0 := by
  refine ⟨rfl, rfl, fun _ => rfl, rfl, rfl, rfl, fun _ => rfl, by decide, rfl, by decide,
    rfl, by decide⟩

theorem totalBalance_eq_sum (l : List Transaction) :
    totalBalance l = (l.map signedAmount).sum := by
  induction l with
  | nil => rfl
  | cons t ts ih => rw [totalBalance_cons, ih]; simp

/-- Short month names, `toLocaleDateString(en-US, month: short)`. -/
def MONTH_SHORT : List String :=
  ["Jan", "Feb", "Mar", "Apr", "May", "Jun", "Jul", "Aug", "Sep", "Oct", "Nov", "Dec"]

def monthShortName (m : Fin 12) : String := MONTH_SHORT.getD m.val ""

/-- One point of the net-asset chart data (`src/components/TransactionItem.tsx`
lines 138-141). -/
structure NetAssetPoint where
  month : String
  netAsset : ℚ
deriving DecidableEq, Repr

/-- The initial running balance of `netAssetData`
(`src/components/TransactionItem.tsx` lines 119-121): the signed sum of
all transactions whose year is strictly before the current year. -/
def preYearBalance (transactions : List Transaction) (currentYear : Nat) : ℚ :=
  (transactions.filter (fun tx => tx.date.year < currentYear)).foldl
    (fun acc tx => if tx.type = TransactionType.INCOME then acc + tx.amount else acc - tx.amount) 0

/-- The per-month surplus scan of `netAssetData`
(`src/components/TransactionItem.tsx` lines 128-134): signed sum of the
transactions of one month of the current year. -/
def monthlySurplus (transactions : List Transaction) (currentYear : Nat) (monthIndex : Fin 12) :
    ℚ :=
  (transactions.filter
      (fun tx => tx.date.year = currentYear ∧ tx.date.month = monthIndex)).foldl
    (fun acc tx => if tx.type = TransactionType.INCOME then acc + tx.amount else acc - tx.amount) 0

/-- The `months.map` loop of `netAssetData` with its closure-mutated
`runningBalance`, written as explicit state passing. -/
def netAssetRun (transactions : List Transaction) (currentYear : Nat) :
    List (Fin 12) → ℚ → List NetAssetPoint
  | [], _ => []
  | m :: rest, runningBalance =>
      ⟨monthShortName m, runningBalance + monthlySurplus transactions currentYear m⟩ ::
        netAssetRun transactions currentYear rest
          (runningBalance + monthlySurplus transactions currentYear m)

/-- `netAssetData` (`src/components/TransactionItem.tsx` lines 115-143).
The source closes over `currentYear = new Date().getFullYear()`; it is a
parameter here. -/
def netAssetData (transactions : List Transaction) (currentYear : Nat) : List NetAssetPoint :=
  netAssetRun transactions currentYear (List.finRange 12) (preYearBalance transactions currentYear)

/-- The signed sum of the transactions dated in `year` (claim-side
shorthand: "that year's signed transactions"). -/
def yearSignedSum (transactions : List Transaction) (year : Nat) : ℚ :=
  ((transactions.filter (fun t => t.date.year = year)).map signedAmount).sum

def defaultPoint : NetAssetPoint := ⟨"", 0⟩

theorem monthlySurplus_eq_sum (ts : List Transaction) (y : Nat) (m : Fin 12) :
    monthlySurplus ts y m
      = ((ts.filter (fun tx => tx.date.year = y ∧ tx.date.month = m)).map signedAmount).sum :=
  totalBalance_eq_sum _

theorem preYearBalance_eq_sum (ts : List Transaction) (y : Nat) :
    preYearBalance ts y = ((ts.filter (fun tx => tx.date.year < y)).map signedAmount).sum :=
  totalBalance_eq_sum _

theorem monthly_surplus_total_fin (ts : List Transaction) (y : Nat) :
    (∑ m : Fin 12, monthlySurplus ts y m) = yearSignedSum ts y := by
  simp only [monthlySurplus_eq_sum, yearSignedSum]
  induction ts with
  | nil => simp
  | cons t ts ih =>
    have h1 : ∀ m : Fin 12,
        (((t :: ts).filter (fun tx => tx.date.year = y ∧ tx.date.month = m)).map
            signedAmount).sum
          = (if t.date.year = y ∧ t.date.month = m then signedAmount t else 0)
            + ((ts.filter (fun tx => tx.date.year = y ∧ tx.date.month = m)).map
                signedAmount).sum := by
      intro m
      rw [List.filter_cons]
      by_cases hc : t.date.year = y ∧ t.date.month = m <;> simp [hc]
    have h2 : (((t :: ts).filter (fun tx => tx.date.year = y)).map signedAmount).sum
        = (if t.date.year = y then signedAmount t else 0)
          + ((ts.filter (fun tx => tx.date.year = y)).map signedAmount).sum := by
      rw [List.filter_cons]
      by_cases hy : t.date.year = y <;> simp [hy]
    simp only [h1, h2, Finset.sum_add_distrib, ih]
    congr 1
    by_cases hy : t.date.year = y
    · simp only [hy, true_and]
      rw [Finset.sum_ite_eq Finset.univ t.date.month (fun _ => signedAmount t)]
      simp
    · simp [hy]

theorem monthly_surplus_total (ts : List Transaction) (y : Nat) :
    (((List.finRange 12).map (monthlySurplus ts y)).sum) = yearSignedSum ts y := by
  rw [← List.ofFn_eq_map, List.sum_ofFn, monthly_surplus_total_fin]

theorem netAssetRun_length (ts : List Transaction) (y : Nat) (ms : List (Fin 12)) (rb : ℚ) :
    (netAssetRun ts y ms rb).length = ms.length := by
  induction ms generalizing rb with
  | nil => rfl
  | cons m rest ih => simp [netAssetRun, ih]

theorem finRange_twelve :
    List.finRange 12 = [(0 : Fin 12), 1, 2, 3, 4, 5, 6, 7, 8, 9, 10, 11] := by decide

/-- C1 (amended): `netAssetData` always yields exactly 12 points; the run
starts from the signed sum of the transactions dated strictly before the
year; each point is the previous running balance plus that month's signed
surplus; and the *starting pre-year balance* minus point[11] equals the
negated signed sum of that year's transactions.  (As stated, with
point[0] in place of the starting balance, the claim is false: see the
counterexample theorem.) -/
theorem netAssetData_properties (ts : List Transaction) (y : Nat) :
    (netAssetData ts y).length = 12 ∧
    ((netAssetData ts y).getD 0 defaultPoint).netAsset
      = preYearBalance ts y + monthlySurplus ts y 0 ∧
    (∀ i : Fin 11,
      (((netAssetData ts y).getD (i.val + 1) defaultPoint).netAsset
        = ((netAssetData ts y).getD i.val defaultPoint).netAsset
          + monthlySurplus ts y i.succ)) ∧
    preYearBalance ts y - ((netAssetData ts y).getD 11 defaultPoint).netAsset
      = -(yearSignedSum ts y) := by
  refine ⟨?_, ?_, ?_, ?_⟩
  · rw [netAssetData, netAssetRun_length]
    simp
  · rw [netAssetData, finRange_twelve]
    simp [netAssetRun]
  · intro i
    have s0 : Fin.succ (0 : Fin 11) = (1 : Fin 12) := by decide
    have s1 : Fin.succ (1 : Fin 11) = (2 : Fin 12) := by decide
    have s2 : Fin.succ (2 : Fin 11) = (3 : Fin 12) := by decide
    have s3 : Fin.succ (3 : Fin 11) = (4 : Fin 12) := by decide
    have s4 : Fin.succ (4 : Fin 11) = (5 : Fin 12) := by decide
    have s5 : Fin.succ (5 : Fin 11) = (6 : Fin 12) := by decide
    have s6 : Fin.succ (6 : Fin 11) = (7 : Fin 12) := by decide
    have s7 : Fin.succ (7 : Fin 11) = (8 : Fin 12) := by decide
    have s8 : Fin.succ (8 : Fin 11) = (9 : Fin 12) := by decide
    have s9 : Fin.succ (9 : Fin 11) = (10 : Fin 12) := by decide
    have s10 : Fin.succ (10 : Fin 11) = (11 : Fin 12) := by decide
    rw [netAssetData, finRange_twelve]
    fin_cases i <;>
      simp [netAssetRun, s0, s1, s2, s3, s4, s5, s6, s7, s8, s9, s10]
  · rw [netAssetData, ← monthly_surplus_total, finRange_twelve]
    simp only [netAssetRun, List.getD_cons_succ, List.getD_cons_zero, List.map_cons,
      List.map_nil, List.sum_cons, List.sum_nil]
    ring

/-- A concrete income transaction of 100 in January 2024. -/
def janIncome : Transaction :=
  ⟨"1", 100, "salary", ⟨2024, 0, 15, 0⟩, "", .INCOME⟩

/-- C1 counterexample: for the single transaction `janIncome` and year
2024, point[0] minus point[11] is 0 while the negated signed year sum is
-100, so the claim's final conjunct is false as stated. -/
theorem netAssetData_first_minus_last_ne_neg_year_sum :
    ¬ (((netAssetData [janIncome] 2024).getD 0 defaultPoint).netAsset
        - ((netAssetData [janIncome] 2024).getD 11 defaultPoint).netAsset
       = -(yearSignedSum [janIncome] 2024)) := by
  rw [netAssetData, finRange_twelve]
  simp only [netAssetRun, List.getD_cons_succ, List.getD_cons_zero]
  simp [monthlySurplus, preYearBalance, yearSignedSum, janIncome, signedAmount,
    List.filter]

/-- `SortOption` from `src/unnamed/part_001` (types). -/
inductive SortOption where
  | DATE_DESC
  | DATE_ASC
  | AMOUNT_DESC
  | AMOUNT_ASC
  | TYPE_EXPENSE
  | TYPE_INCOME
deriving DecidableEq, Repr

/-- `(a, b) => new Date(a.date).getTime() - new Date(b.date).getTime()`
(DATE_ASC comparator, `src/App.tsx` line 161) as the relation
`comparator a b <= 0`. -/
def dateAscLE (a b : Transaction) : Prop := a.date.getTime ≤ b.date.getTime

/-- DATE_DESC comparator (`src/App.tsx` line 180) as `comparator a b <= 0`. -/
def dateDescLE (a b : Transaction) : Prop := b.date.getTime ≤ a.date.getTime

/-- AMOUNT_DESC comparator (`src/App.tsx` line 163) as `comparator a b <= 0`. -/
def amountDescLE (a b : Transaction) : Prop := b.amount ≤ a.amount

/-- AMOUNT_ASC comparator (`src/App.tsx` line 165) as `comparator a b <= 0`. -/
def amountAscLE (a b : Transaction) : Prop := a.amount ≤ b.amount

/-- TYPE_EXPENSE comparator (`src/App.tsx` lines 168-171) as
`comparator a b <= 0`: equal types compare by date descending, otherwise
the comparator returns -1 exactly when `a` is an expense. -/
def typeExpenseLE (a b : Transaction) : Prop :=
  if a.type = b.type then b.date.getTime ≤ a.date.getTime
  else a.type = TransactionType.EXPENSE

/-- TYPE_INCOME comparator (`src/App.tsx` lines 174-177) as
`comparator a b <= 0`. -/
def typeIncomeLE (a b : Transaction) : Prop :=
  if a.type = b.type then b.date.getTime ≤ a.date.getTime
  else a.type = TransactionType.INCOME

instance : DecidableRel dateAscLE := fun _ _ => Nat.decLe _ _

instance : DecidableRel dateDescLE := fun _ _ => Nat.decLe _ _

instance : DecidableRel amountDescLE := fun a b => inferInstanceAs (Decidable (b.amount ≤ a.amount))

instance : DecidableRel amountAscLE := fun a b => inferInstanceAs (Decidable (a.amount ≤ b.amount))

instance : DecidableRel typeExpenseLE := fun a b => by
  unfold typeExpenseLE; infer_instance

instance : DecidableRel typeIncomeLE := fun a b => by
  unfold typeIncomeLE; infer_instance

instance : IsTotal Transaction typeExpenseLE := ⟨by
  intro a b
  unfold typeExpenseLE
  cases ha : a.type <;> cases hb : b.type <;> simp_all <;> omega⟩

instance : IsTrans Transaction typeExpenseLE := ⟨by
  intro a b c hab hbc
  unfold typeExpenseLE at *
  cases ha : a.type <;> cases hb : b.type <;> cases hc : c.type <;> simp_all <;> omega⟩

instance : IsTotal Transaction typeIncomeLE := ⟨by
  intro a b
  unfold typeIncomeLE
  cases ha : a.type <;> cases hb : b.type <;> simp_all <;> omega⟩

instance : IsTrans Transaction typeIncomeLE := ⟨by
  intro a b c hab hbc
  unfold typeIncomeLE at *
  cases ha : a.type <;> cases hb : b.type <;> cases hc : c.type <;> simp_all <;> omega⟩

/-- `sortedTransactions` (`src/App.tsx` lines 157-182): the source copies
the list (`[...transactions]`) and sorts the copy with the comparator of
the selected option; modelled as a stable comparison sort over the
`comparator a b <= 0` relation.  Being a pure function of the input, the
underlying store list is untouched by construction, as in the source. -/
def sortedTransactions (sortOption : SortOption) (transactions : List Transaction) :
    List Transaction :=
  match sortOption with
  | .DATE_ASC => transactions.insertionSort dateAscLE
  | .AMOUNT_DESC => transactions.insertionSort amountDescLE
  | .AMOUNT_ASC => transactions.insertionSort amountAscLE
  | .TYPE_EXPENSE => transactions.insertionSort typeExpenseLE
  | .TYPE_INCOME => transactions.insertionSort typeIncomeLE
  | .DATE_DESC => transactions.insertionSort dateDescLE

/-- The ordering claimed for TYPE_EXPENSE: for any earlier/later pair in
the output, an expense never follows an income, and equal types are in
date-descending order. -/
def expensesFirstRel (a b : Transaction) : Prop :=
  (a.type ≠ b.type → a.type = TransactionType.EXPENSE) ∧
  (a.type = b.type → b.date.getTime ≤ a.date.getTime)

/-- The mirrored ordering claimed for TYPE_INCOME. -/
def incomesFirstRel (a b : Transaction) : Prop :=
  (a.type ≠ b.type → a.type = TransactionType.INCOME) ∧
  (a.type = b.type → b.date.getTime ≤ a.date.getTime)

/-- C7: sorting with TYPE_EXPENSE places every EXPENSE transaction before
every INCOME transaction with date-descending order inside each type, and
TYPE_INCOME does the symmetric thing. -/
theorem sortedTransactions_type_options_order (ts : List Transaction) :
    List.Pairwise expensesFirstRel (sortedTransactions .TYPE_EXPENSE ts) ∧
    List.Pairwise incomesFirstRel (sortedTransactions .TYPE_INCOME ts) := by
  constructor
  · refine (List.sorted_insertionSort typeExpenseLE ts).imp ?_
    intro a b hab
    unfold typeExpenseLE at hab
    refine ⟨fun hne => ?_, fun heq => ?_⟩
    · rwa [if_neg hne] at hab
    · rwa [if_pos heq] at hab
  · refine (List.sorted_insertionSort typeIncomeLE ts).imp ?_
    intro a b hab
    unfold typeIncomeLE at hab
    refine ⟨fun hne => ?_, fun heq => ?_⟩
    · rwa [if_neg hne] at hab
    · rwa [if_pos heq] at hab

/-- C10: for every option, sorting returns a permutation of the input
list (the same transactions, each unmodified); the store list itself is
never mutated - the source sorts a spread copy, and the model is a pure
function of the input. -/
theorem sortedTransactions_perm (sortOption : SortOption) (ts : List Transaction) :
    (sortedTransactions sortOption ts).Perm ts := by
  cases sortOption <;> exact List.perm_insertionSort _ _

/-- The calendar-day equality used by `groupedTransactions`
(`src/App.tsx` lines 192-197): equal `getFullYear`, `getMonth` and
`getDate`. -/
def sameDay (d1 d2 : LocalDate) : Bool :=
  d1.year == d2.year && d1.month == d2.month && d1.day == d2.day

theorem sameDay_iff (d1 d2 : LocalDate) :
    sameDay d1 d2 = true ↔ (d1.year = d2.year ∧ d1.month = d2.month ∧ d1.day = d2.day) := by
  simp [sameDay, Bool.and_eq_true, and_assoc]

theorem sameDay_refl (d : LocalDate) : sameDay d d = true := by
  simp [sameDay_iff]

theorem sameDay_symm {d1 d2 : LocalDate} (h : sameDay d1 d2 = true) : sameDay d2 d1 = true := by
  rw [sameDay_iff] at *
  exact ⟨h.1.symm, h.2.1.symm, h.2.2.symm⟩

theorem sameDay_trans {d1 d2 d3 : LocalDate} (h1 : sameDay d1 d2 = true)
    (h2 : sameDay d2 d3 = true) : sameDay d1 d3 = true := by
  rw [sameDay_iff] at *
  exact ⟨h1.1.trans h2.1, h1.2.1.trans h2.2.1, h1.2.2.trans h2.2.2⟩

/-- `DailyGroup` from `src/unnamed/part_001` (types); `date` is the full
date value of the first transaction of the group. -/
structure DailyGroup where
  date : LocalDate
  transactions : List Transaction
  totalExpense : ℚ
  totalIncome : ℚ
deriving DecidableEq, Repr

/-- Pushing one transaction into a group (`src/App.tsx` lines 205-210):
append the transaction and add its amount to the subtotal of its type. -/
def pushToGroup (g : DailyGroup) (t : Transaction) : DailyGroup :=
  if t.type = TransactionType.EXPENSE then
    { g with transactions := g.transactions ++ [t], totalExpense := g.totalExpense + t.amount }
  else
    { g with transactions := g.transactions ++ [t], totalIncome := g.totalIncome + t.amount }

/-- One step of the grouping loop (`src/App.tsx` lines 190-211): find the
first group on the same calendar day and push the transaction into it; if
none matches, append a fresh zero-total group carrying the transaction's
date at the end and push into that one. -/
def addToGroups : List DailyGroup → Transaction → List DailyGroup
  | [], t => [pushToGroup ⟨t.date, [], 0, 0⟩ t]
  | g :: rest, t =>
      if sameDay g.date t.date then pushToGroup g t :: rest
      else g :: addToGroups rest t

/-- `groupedTransactions` (`src/App.tsx` lines 185-213): fold the sorted
transactions through the grouping loop starting from no groups. -/
def groupedTransactions (sorted : List Transaction) : List DailyGroup :=
  sorted.foldl addToGroups []

/-- Specification-side helper: the first occurrence of each calendar day,
in input order (later same-day dates removed).  Defined with explicit
structural fuel so that it evaluates by kernel reduction. -/
def firstOccDaysAux : Nat → List LocalDate → List LocalDate
  | 0, _ => []
  | _ + 1, [] => []
  | fuel + 1, d :: rest => d :: firstOccDaysAux fuel (rest.filter (fun e => !(sameDay d e)))

def firstOccDays (ds : List LocalDate) : List LocalDate := firstOccDaysAux ds.length ds

theorem firstOccDaysAux_congr :
    ∀ (fuelA : Nat) (fuelB : Nat) (ds : List LocalDate), ds.length ≤ fuelA →
      ds.length ≤ fuelB → firstOccDaysAux fuelA ds = firstOccDaysAux fuelB ds := by
  intro fuelA
  induction fuelA with
  | zero =>
    intro fuelB ds h1 h2
    have hnil : ds = [] := List.eq_nil_of_length_eq_zero (Nat.le_zero.mp h1)
    subst hnil
    cases fuelB <;> rfl
  | succ f ih =>
    intro fuelB ds h1 h2
    cases ds with
    | nil => cases fuelB <;> rfl
    | cons d rest =>
      cases fuelB with
      | zero => exact absurd h2 (by simp)
      | succ fB =>
        simp only [firstOccDaysAux]
        have hlen : (rest.filter (fun e => !(sameDay d e))).length ≤ rest.length :=
          List.length_filter_le _ _
        have hA : (rest.filter (fun e => !(sameDay d e))).length ≤ f :=
          le_trans hlen (Nat.lt_succ_iff.mp (Nat.lt_of_lt_of_le (Nat.lt_succ_self _) h1))
        have hB : (rest.filter (fun e => !(sameDay d e))).length ≤ fB :=
          le_trans hlen (Nat.lt_succ_iff.mp (Nat.lt_of_lt_of_le (Nat.lt_succ_self _) h2))
        rw [ih fB _ hA hB]

theorem firstOccDays_cons (d : LocalDate) (rest : List LocalDate) :
    firstOccDays (d :: rest) = d :: firstOccDays (rest.filter (fun e => !(sameDay d e))) := by
  show firstOccDaysAux (d :: rest).length (d :: rest) = _
  simp only [List.length_cons, firstOccDaysAux]
  rw [firstOccDaysAux_congr rest.length _ _ (List.length_filter_le _ _) (le_refl _)]
  rfl

theorem firstOccDays_any_sameDay (d : LocalDate) :
    ∀ (n : Nat) (ds : List LocalDate), ds.length ≤ n →
      ((firstOccDays ds).any (fun e => sameDay e d) = ds.any (fun e => sameDay e d)) := by
  intro n
  induction n with
  | zero =>
    intro ds h
    have hnil : ds = [] := List.eq_nil_of_length_eq_zero (Nat.le_zero.mp h)
    subst hnil
    rfl
  | succ m ih =>
    intro ds h
    cases ds with
    | nil => rfl
    | cons e rest =>
      rw [firstOccDays_cons]
      simp only [List.any_cons]
      by_cases hed : sameDay e d = true
      · simp [hed]
      · simp only [hed, Bool.false_or]
        rw [ih _ (le_trans (List.length_filter_le _ _)
          (Nat.lt_succ_iff.mp (Nat.lt_of_lt_of_le (by simp) h)))]
        cases hrest : rest.any (fun e2 => sameDay e2 d) with
        | true =>
          rw [List.any_eq_true] at hrest
          obtain ⟨e2, he2, hsd⟩ := hrest
          have hne : sameDay e e2 = false := by
            cases hc : sameDay e e2 with
            | false => rfl
            | true => exact absurd (sameDay_trans hc hsd) hed
          have hmem : e2 ∈ rest.filter (fun x => !(sameDay e x)) := by
            rw [List.mem_filter]
            exact ⟨he2, by simp [hne]⟩
          rw [List.any_eq_true]
          exact ⟨e2, hmem, hsd⟩
        | false =>
          cases hres : (rest.filter (fun x => !(sameDay e x))).any (fun e2 => sameDay e2 d) with
          | false => rfl
          | true =>
            rw [List.any_eq_true] at hres
            obtain ⟨e2, he2, hsd⟩ := hres
            rw [List.mem_filter] at he2
            have hcontra : rest.any (fun e2 => sameDay e2 d) = true :=
              List.any_eq_true.mpr ⟨e2, he2.1, hsd⟩
            rw [hrest] at hcontra
            simp at hcontra

theorem firstOccDays_append_single :
    ∀ (n : Nat) (ds : List LocalDate) (d : LocalDate), ds.length ≤ n →
      firstOccDays (ds ++ [d])
        = if ds.any (fun e => sameDay e d) then firstOccDays ds
          else firstOccDays ds ++ [d] := by
  intro n
  induction n with
  | zero =>
    intro ds d h
    have hnil : ds = [] := List.eq_nil_of_length_eq_zero (Nat.le_zero.mp h)
    subst hnil
    rfl
  | succ m ih =>
    intro ds d h
    cases ds with
    | nil => rfl
    | cons e rest =>
      rw [List.cons_append, firstOccDays_cons, firstOccDays_cons, List.filter_append]
      simp only [List.any_cons]
      by_cases hed : sameDay e d = true
      · have hfd : [d].filter (fun x => !(sameDay e x)) = [] := by
          simp [List.filter, hed]
        rw [hfd, List.append_nil]
        simp [hed]
      · have hfd : [d].filter (fun x => !(sameDay e x)) = [d] := by
          simp [List.filter, hed]
        rw [hfd]
        have hlen : (rest.filter (fun x => !(sameDay e x))).length ≤ m :=
          le_trans (List.length_filter_le _ _)
            (Nat.lt_succ_iff.mp (Nat.lt_of_lt_of_le (by simp) h))
        rw [ih _ d hlen]
        have hany : (rest.filter (fun x => !(sameDay e x))).any (fun e2 => sameDay e2 d)
            = rest.any (fun e2 => sameDay e2 d) := by
          cases hrest : rest.any (fun e2 => sameDay e2 d) with
          | true =>
            rw [List.any_eq_true] at hrest
            obtain ⟨e2, he2, hsd⟩ := hrest
            have hne : sameDay e e2 = false := by
              cases hc : sameDay e e2 with
              | false => rfl
              | true => exact absurd (sameDay_trans hc hsd) hed
            rw [List.any_eq_true]
            exact ⟨e2, by rw [List.mem_filter]; exact ⟨he2, by simp [hne]⟩, hsd⟩
          | false =>
            cases hres : (rest.filter (fun x => !(sameDay e x))).any (fun e2 => sameDay e2 d) with
            | false => rfl
            | true =>
              rw [List.any_eq_true] at hres
              obtain ⟨e2, he2, hsd⟩ := hres
              rw [List.mem_filter] at he2
              have hcontra : rest.any (fun e2 => sameDay e2 d) = true :=
                List.any_eq_true.mpr ⟨e2, he2.1, hsd⟩
              rw [hrest] at hcontra
              simp at hcontra
        rw [hany]
        simp only [hed, Bool.false_or]
        cases hrest : rest.any (fun e2 => sameDay e2 d) <;> simp

theorem totalExpense_append (l1 l2 : List Transaction) :
    totalExpense (l1 ++ l2) = totalExpense l1 + totalExpense l2 := by
  simp [totalExpense_eq_sum, List.filter_append]

theorem totalIncome_append (l1 l2 : List Transaction) :
    totalIncome (l1 ++ l2) = totalIncome l1 + totalIncome l2 := by
  simp [totalIncome_eq_sum, List.filter_append]

/-- The invariant each built group satisfies: every member shares the
group's calendar day, and the running subtotals are exactly the totals of
the members by type. -/
def GroupOK (g : DailyGroup) : Prop :=
  (∀ t ∈ g.transactions, sameDay g.date t.date = true) ∧
  g.totalExpense = totalExpense g.transactions ∧
  g.totalIncome = totalIncome g.transactions

theorem pushToGroup_date (g : DailyGroup) (t : Transaction) :
    (pushToGroup g t).date = g.date := by
  unfold pushToGroup
  split <;> rfl

theorem pushToGroup_ok {g : DailyGroup} {t : Transaction} (hg : GroupOK g)
    (hsd : sameDay g.date t.date = true) : GroupOK (pushToGroup g t) := by
  obtain ⟨hday, hexp, hinc⟩ := hg
  unfold GroupOK pushToGroup
  by_cases ht : t.type = TransactionType.EXPENSE
  · rw [if_pos ht]
    refine ⟨?_, ?_, ?_⟩
    · intro t2 ht2
      rw [List.mem_append] at ht2
      rcases ht2 with h2 | h2
      · exact hday t2 h2
      · rw [List.mem_singleton] at h2
        subst h2
        exact hsd
    · rw [totalExpense_append, ← hexp]
      simp [totalExpense_eq_sum, ht]
    · rw [totalIncome_append, ← hinc]
      have h2 : t.type ≠ TransactionType.INCOME := by
        rw [ht]; intro hc; exact TransactionType.noConfusion hc
      simp [totalIncome_eq_sum, h2]
  · rw [if_neg ht]
    refine ⟨?_, ?_, ?_⟩
    · intro t2 ht2
      rw [List.mem_append] at ht2
      rcases ht2 with h2 | h2
      · exact hday t2 h2
      · rw [List.mem_singleton] at h2
        subst h2
        exact hsd
    · rw [totalExpense_append, ← hexp]
      simp [totalExpense_eq_sum, ht]
    · rw [totalIncome_append, ← hinc]
      have h2 : t.type = TransactionType.INCOME := by
        cases hc : t.type
        · exact absurd hc ht
        · rfl
      simp [totalIncome_eq_sum, h2]

theorem addToGroups_ok (t : Transaction) :
    ∀ (gs : List DailyGroup), (∀ g ∈ gs, GroupOK g) → ∀ g ∈ addToGroups gs t, GroupOK g := by
  intro gs
  induction gs with
  | nil =>
    intro _ g hg
    simp only [addToGroups, List.mem_singleton] at hg
    subst hg
    refine pushToGroup_ok ⟨?_, ?_, ?_⟩ (sameDay_refl _) <;> simp [totalExpense, totalIncome]
  | cons g0 rest ih =>
    intro hall g hg
    unfold addToGroups at hg
    by_cases hsd : sameDay g0.date t.date = true
    · rw [if_pos hsd] at hg
      rcases List.mem_cons.mp hg with h2 | h2
      · subst h2
        exact pushToGroup_ok (hall g0 (List.mem_cons_self _ _)) hsd
      · exact hall g (List.mem_cons_of_mem _ h2)
    · rw [if_neg hsd] at hg
      rcases List.mem_cons.mp hg with h2 | h2
      · subst h2
        exact hall g (List.mem_cons_self _ _)
      · exact ih (fun g2 hg2 => hall g2 (List.mem_cons_of_mem _ hg2)) g h2

theorem addToGroups_no_match (t : Transaction) :
    ∀ (gs : List DailyGroup), (∀ g ∈ gs, sameDay g.date t.date = false) →
      addToGroups gs t = gs ++ [pushToGroup ⟨t.date, [], 0, 0⟩ t] := by
  intro gs
  induction gs with
  | nil => intro _; rfl
  | cons g0 rest ih =>
    intro hall
    unfold addToGroups
    have h0 : sameDay g0.date t.date = false := hall g0 (List.mem_cons_self _ _)
    rw [if_neg (by rw [h0]; exact Bool.false_ne_true)]
    rw [ih (fun g hg => hall g (List.mem_cons_of_mem _ hg))]
    rfl

theorem addToGroups_match_dates (t : Transaction) :
    ∀ (gs : List DailyGroup), (∃ g ∈ gs, sameDay g.date t.date = true) →
      (addToGroups gs t).map (fun g => g.date) = gs.map (fun g => g.date) := by
  intro gs
  induction gs with
  | nil => intro h; obtain ⟨g, hg, _⟩ := h; exact absurd hg (List.not_mem_nil g)
  | cons g0 rest ih =>
    intro h
    unfold addToGroups
    by_cases hsd : sameDay g0.date t.date = true
    · rw [if_pos hsd]
      simp [pushToGroup_date]
    · rw [if_neg hsd]
      obtain ⟨g, hg, hgsd⟩ := h
      rcases List.mem_cons.mp hg with h2 | h2
      · subst h2; exact absurd hgsd hsd
      · simp only [List.map_cons]
        rw [ih ⟨g, h2, hgsd⟩]

theorem foldl_addToGroups_ok (l : List Transaction) :
    ∀ (acc : List DailyGroup), (∀ g ∈ acc, GroupOK g) →
      ∀ g ∈ l.foldl addToGroups acc, GroupOK g := by
  induction l with
  | nil => intro acc h; simpa using h
  | cons t rest ih =>
    intro acc h
    rw [List.foldl_cons]
    exact ih _ (addToGroups_ok t acc h)

theorem groupedTransactions_ok (l : List Transaction) :
    ∀ g ∈ groupedTransactions l, GroupOK g :=
  foldl_addToGroups_ok l [] (by simp)

theorem groupedTransactions_dates (l : List Transaction) :
    (groupedTransactions l).map (fun g => g.date)
      = firstOccDays (l.map (fun t => t.date)) := by
  induction l using List.reverseRecOn with
  | nil => rfl
  | append_singleton l t ih =>
    have hgt : groupedTransactions (l ++ [t]) = addToGroups (groupedTransactions l) t := by
      simp [groupedTransactions, List.foldl_append]
    have hmap : (l ++ [t]).map (fun t2 => t2.date)
        = l.map (fun t2 => t2.date) ++ [t.date] := by simp
    rw [hgt, hmap,
      firstOccDays_append_single (l.map (fun t2 => t2.date)).length _ _ (le_refl _)]
    by_cases hmatch : (l.map (fun t2 => t2.date)).any (fun e => sameDay e t.date) = true
    · rw [if_pos hmatch]
      have hany : (firstOccDays (l.map (fun t2 => t2.date))).any
          (fun e => sameDay e t.date) = true := by
        rw [firstOccDays_any_sameDay t.date (l.map (fun t2 => t2.date)).length _ (le_refl _)]
        exact hmatch
      have hexists : ∃ g ∈ groupedTransactions l, sameDay g.date t.date = true := by
        rw [List.any_eq_true] at hany
        obtain ⟨e, he, hsd⟩ := hany
        rw [← ih, List.mem_map] at he
        obtain ⟨g, hgmem, hge⟩ := he
        exact ⟨g, hgmem, by rw [hge]; exact hsd⟩
      rw [addToGroups_match_dates t _ hexists, ih]
    · rw [if_neg hmatch]
      have hb : (l.map (fun t2 => t2.date)).any (fun e => sameDay e t.date) = false := by
        cases hc : (l.map (fun t2 => t2.date)).any (fun e => sameDay e t.date) with
        | false => rfl
        | true => exact absurd hc hmatch
      have hall : ∀ g ∈ groupedTransactions l, sameDay g.date t.date = false := by
        intro g hg
        have hmem : g.date ∈ (groupedTransactions l).map (fun g2 => g2.date) :=
          List.mem_map_of_mem _ hg
        rw [ih] at hmem
        have hanyf : (firstOccDays (l.map (fun t2 => t2.date))).any
            (fun e => sameDay e t.date) = false := by
          rw [firstOccDays_any_sameDay t.date (l.map (fun t2 => t2.date)).length _ (le_refl _)]
          exact hb
        cases hc : sameDay g.date t.date with
        | false => rfl
        | true =>
          have hcontra : (firstOccDays (l.map (fun t2 => t2.date))).any
              (fun e => sameDay e t.date) = true :=
            List.any_eq_true.mpr ⟨g.date, hmem, hc⟩
          rw [hanyf] at hcontra
          simp at hcontra
      rw [addToGroups_no_match t _ hall, List.map_append, ih]
      simp [pushToGroup_date]

/-- The three-transaction example of the claim: two on Jan 1 2024 (09:00
and 18:00) and one on Jan 2 2024 (08:00). -/
def exT1 : Transaction := ⟨"a", 10, "food", ⟨2024, 0, 1, 540⟩, "", .EXPENSE⟩

def exT2 : Transaction := ⟨"b", 20, "food", ⟨2024, 0, 1, 1080⟩, "", .EXPENSE⟩

def exT3 : Transaction := ⟨"c", 30, "salary", ⟨2024, 0, 2, 480⟩, "", .INCOME⟩

/-- C8: groups are formed by calendar-day equality, ordered by first
occurrence in the already-sorted input (the group dates are exactly the
first occurrences of each day, in order), each group accumulates the
expense and income totals of its members; and on the concrete example
sorted DATE_DESC the result is exactly 2 groups, Jan 2 first, with both
Jan 1 transactions in the second group (in scan order). -/
theorem groupedTransactions_correct (l : List Transaction) :
    (∀ g ∈ groupedTransactions l, GroupOK g) ∧
    (groupedTransactions l).map (fun g => g.date)
      = firstOccDays (l.map (fun t => t.date)) ∧
    (groupedTransactions (sortedTransactions .DATE_DESC [exT1, exT2, exT3])).map
        (fun g => (g.date, g.transactions))
      = [(exT3.date, [exT3]), (exT2.date, [exT2, exT1])] :=
  ⟨groupedTransactions_ok l, groupedTransactions_dates l, by decide⟩

/-- One entry of the category pie data
(`src/components/TransactionItem.tsx` line 80). -/
structure ExpenseSlice where
  name : String
  value : ℚ
  color : String
deriving DecidableEq, Repr

/-- `ALL_CATEGORIES.find(c => c.id === curr.categoryId)`
(`src/components/TransactionItem.tsx` line 72). -/
def findCategory (categoryId : String) : Option Category :=
  ALL_CATEGORIES.find? (fun c => c.id = categoryId)

/-- `t(cat_id) || category.name` (`src/components/TransactionItem.tsx`
line 75): the translated name unless it is the empty (falsy) string.  The
translation function `t` is a component prop, so it is a parameter here. -/
def catDisplayName (tName : String → String) (c : Category) : String :=
  if tName ("cat_" ++ c.id) = "" then c.name else tName ("cat_" ++ c.id)

/-- `parseColorClass` (`src/components/TransactionItem.tsx` lines
298-300). -/
def parseColorClass (_colorClass : String) : String := "#8884d8"

/-- `acc.find(i => i.name === catName)` then mutate-or-push
(`src/components/TransactionItem.tsx` lines 76-82): add the amount to the
first slice with this name, or append a new slice at the end. -/
def addSlice (acc : List ExpenseSlice) (nm : String) (amt : ℚ) (col : String) :
    List ExpenseSlice :=
  match acc with
  | [] => [⟨nm, amt, col⟩]
  | s :: rest =>
      if s.name = nm then { s with value := s.value + amt } :: rest
      else s :: addSlice rest nm amt col

/-- One step of the `expenseData` reduce
(`src/components/TransactionItem.tsx` lines 71-83): a transaction whose
categoryId resolves to no catalog category is skipped. -/
def expenseReduce (tName : String → String) (acc : List ExpenseSlice) (tx : Transaction) :
    List ExpenseSlice :=
  match findCategory tx.categoryId with
  | none => acc
  | some c => addSlice acc (catDisplayName tName c) tx.amount (parseColorClass c.color)

/-- `(a, b) => b.value - a.value` (descending sort comparator,
`src/components/TransactionItem.tsx` line 84) as `comparator a b <= 0`. -/
def valueDescLE (a b : ExpenseSlice) : Prop := b.value ≤ a.value

instance : DecidableRel valueDescLE :=
  fun a b => inferInstanceAs (Decidable (b.value ≤ a.value))

instance : IsTotal ExpenseSlice valueDescLE := ⟨fun a b => le_total b.value a.value⟩

instance : IsTrans ExpenseSlice valueDescLE :=
  ⟨fun _ _ _ hab hbc => le_trans hbc hab⟩

/-- `expenseData` (`src/components/TransactionItem.tsx` lines 68-85):
filter to EXPENSE, reduce into named slices skipping unresolvable
categories, then sort by value descending. -/
def expenseData (tName : String → String) (transactions : List Transaction) :
    List ExpenseSlice :=
  ((transactions.filter (fun t => t.type = TransactionType.EXPENSE)).foldl
      (expenseReduce tName) []).insertionSort valueDescLE

theorem findCategory_mem {cid : String} {c : Category} (h : findCategory cid = some c) :
    c ∈ ALL_CATEGORIES :=
  List.mem_of_find?_eq_some h

theorem addSlice_names (nm : String) (amt : ℚ) (col : String) :
    ∀ (acc : List ExpenseSlice), ∀ e ∈ addSlice acc nm amt col,
      e.name = nm ∨ ∃ e0 ∈ acc, e.name = e0.name := by
  intro acc
  induction acc with
  | nil =>
    intro e he
    simp only [addSlice, List.mem_singleton] at he
    subst he
    exact Or.inl rfl
  | cons s rest ih =>
    intro e he
    unfold addSlice at he
    by_cases hs : s.name = nm
    · rw [if_pos hs] at he
      rcases List.mem_cons.mp he with h2 | h2
      · subst h2
        exact Or.inr ⟨s, List.mem_cons_self _ _, rfl⟩
      · exact Or.inr ⟨e, List.mem_cons_of_mem _ h2, rfl⟩
    · rw [if_neg hs] at he
      rcases List.mem_cons.mp he with h2 | h2
      · subst h2
        exact Or.inr ⟨e, List.mem_cons_self _ _, rfl⟩
      · rcases ih e h2 with h3 | ⟨e0, he0, h3⟩
        · exact Or.inl h3
        · exact Or.inr ⟨e0, List.mem_cons_of_mem _ he0, h3⟩

theorem foldl_expenseReduce_names (tName : String → String) (l : List Transaction) :
    ∀ (acc : List ExpenseSlice),
      (∀ e ∈ acc, ∃ c ∈ ALL_CATEGORIES, e.name = catDisplayName tName c) →
      ∀ e ∈ l.foldl (expenseReduce tName) acc,
        ∃ c ∈ ALL_CATEGORIES, e.name = catDisplayName tName c := by
  induction l with
  | nil => intro acc h; simpa using h
  | cons t rest ih =>
    intro acc h
    rw [List.foldl_cons]
    refine ih _ ?_
    intro e he
    unfold expenseReduce at he
    cases hf : findCategory t.categoryId with
    | none => rw [hf] at he; exact h e he
    | some c =>
      rw [hf] at he
      rcases addSlice_names _ _ _ acc e he with h2 | ⟨e0, he0, h2⟩
      · exact ⟨c, findCategory_mem hf, h2⟩
      · obtain ⟨c0, hc0, h3⟩ := h e0 he0
        exact ⟨c0, hc0, h2.trans h3⟩

/-- C9: a transaction with an unresolvable categoryId still contributes
its amount to the type-keyed totals (which never look at the catalog) but
is invisible to `expenseData`; every slice of `expenseData` is named
after a catalog category, and the slices are sorted descending by
value. -/
theorem expenseData_unknown_category (tName : String → String) (ts : List Transaction) :
    List.Pairwise (fun a b => valueDescLE a b) (expenseData tName ts) ∧
    (∀ e ∈ expenseData tName ts, ∃ c ∈ ALL_CATEGORIES, e.name = catDisplayName tName c) ∧
    (∀ t : Transaction, findCategory t.categoryId = none →
      expenseData tName (t :: ts) = expenseData tName ts ∧
      totalBalance (t :: ts) = signedAmount t + totalBalance ts ∧
      totalIncome (t :: ts)
        = (if t.type = TransactionType.INCOME then t.amount else 0) + totalIncome ts ∧
      totalExpense (t :: ts)
        = (if t.type = TransactionType.EXPENSE then t.amount else 0) + totalExpense ts) := by
  refine ⟨List.sorted_insertionSort valueDescLE _, ?_, ?_⟩
  · intro e he
    rw [expenseData, List.mem_insertionSort] at he
    exact foldl_expenseReduce_names tName _ [] (by simp) e he
  · intro t hf
    refine ⟨?_, totalBalance_cons t ts, totalIncome_cons t ts, totalExpense_cons t ts⟩
    unfold expenseData
    rw [List.filter_cons]
    by_cases ht : t.type = TransactionType.EXPENSE
    · simp only [ht, decide_eq_true_eq, if_pos, List.foldl_cons]
      have h0 : expenseReduce tName [] t = [] := by
        unfold expenseReduce
        rw [hf]
      rw [h0]
    · simp [ht]

/-- An expense transaction whose categoryId matches no catalog entry. -/
def unknownCatTx : Transaction := ⟨"u", 7, "mystery", ⟨2024, 1, 3, 0⟩, "", .EXPENSE⟩

/-- C9 witness: the theorem applied at a concrete name function, list and
unresolvable transaction. -/
theorem expenseData_unknown_category_witness :
    expenseData (fun _ => "") (unknownCatTx :: [exT1]) = expenseData (fun _ => "") [exT1] ∧
    totalExpense (unknownCatTx :: [exT1]) = 7 + totalExpense [exT1] := by
  have h := (expenseData_unknown_category (fun _ => "") [exT1]).2.2 unknownCatTx (by decide)
  refine ⟨h.1, ?_⟩
  rw [h.2.2.2]
  norm_num [unknownCatTx]

/-- The grouping key of `monthlyData`
(`src/components/TransactionItem.tsx` line 94): the string
`toLocaleDateString(en-US, month: short, year: 2-digit)`, e.g. "Oct 23".
Since every short month name has exactly 3 characters and the 2-digit
year exactly 2, the label string is in bijection with the pair
(short month name, year mod 100); the pair is used as the key so that two
labels are equal exactly when month name and 2-digit year agree - in
particular months of years 100 apart still collide, as in the source. -/
structure MonthKey where
  mon : String
  yy : Nat
deriving DecidableEq, Repr

def monthKeyOf (d : LocalDate) : MonthKey := ⟨monthShortName d.month, d.year % 100⟩

/-- Order-isomorphic encoding of
`new Date(getFullYear(), getMonth(), 1).getTime()` - the first-of-month
instant used as the sort key
(`src/components/TransactionItem.tsx` line 96). -/
def monthSortKey (d : LocalDate) : Nat := d.year * 12 + d.month.val

/-- One row of the `monthlyData` record
(`src/components/TransactionItem.tsx` line 89). -/
structure MonthAgg where
  month : MonthKey
  income : ℚ
  expense : ℚ
  surplus : ℚ
  sortKey : Nat
deriving DecidableEq, Repr

/-- Adding one transaction's amounts to a month row
(`src/components/TransactionItem.tsx` lines 102-108). -/
def bumpMonth (r : MonthAgg) (tx : Transaction) : MonthAgg :=
  if tx.type = TransactionType.INCOME then
    { r with income := r.income + tx.amount, surplus := r.surplus + tx.amount }
  else
    { r with expense := r.expense + tx.amount, surplus := r.surplus - tx.amount }

/-- One step of the `monthlyData` loop
(`src/components/TransactionItem.tsx` lines 91-109): amounts are added to
the row keyed by the transaction's month label; a missing key appends a
fresh zero row whose `sortKey` is the first-of-month instant of this
(first) transaction.  JavaScript object string keys iterate in insertion
order, hence the association list with append at the end. -/
def addToMonths : List MonthAgg → Transaction → List MonthAgg
  | [], tx => [bumpMonth ⟨monthKeyOf tx.date, 0, 0, 0, monthSortKey tx.date⟩ tx]
  | r :: rest, tx =>
      if r.month = monthKeyOf tx.date then bumpMonth r tx :: rest
      else r :: addToMonths rest tx

/-- The unsorted month rows, in insertion order (`Object.values(data)`). -/
def monthBuckets (transactions : List Transaction) : List MonthAgg :=
  transactions.foldl addToMonths []

/-- `(a, b) => a.sortKey - b.sortKey` (ascending sort comparator,
`src/components/TransactionItem.tsx` line 111) as `comparator a b <= 0`. -/
def monthSortLE (a b : MonthAgg) : Prop := a.sortKey ≤ b.sortKey

instance : DecidableRel monthSortLE := fun _ _ => Nat.decLe _ _

instance : IsTotal MonthAgg monthSortLE := ⟨fun a b => Nat.le_total a.sortKey b.sortKey⟩

instance : IsTrans MonthAgg monthSortLE := ⟨fun _ _ _ hab hbc => le_trans hab hbc⟩

/-- `monthlyData` (`src/components/TransactionItem.tsx` lines 88-112). -/
def monthlyData (transactions : List Transaction) : List MonthAgg :=
  (monthBuckets transactions).insertionSort monthSortLE

theorem monthBuckets_append_single (l : List Transaction) (t : Transaction) :
    monthBuckets (l ++ [t]) = addToMonths (monthBuckets l) t := by
  simp [monthBuckets, List.foldl_append]

theorem bumpMonth_month (r : MonthAgg) (tx : Transaction) : (bumpMonth r tx).month = r.month := by
  unfold bumpMonth
  split <;> rfl

theorem bumpMonth_sortKey (r : MonthAgg) (tx : Transaction) :
    (bumpMonth r tx).sortKey = r.sortKey := by
  unfold bumpMonth
  split <;> rfl

theorem addToMonths_no_match (tx : Transaction) :
    ∀ (gs : List MonthAgg), (∀ r ∈ gs, r.month ≠ monthKeyOf tx.date) →
      addToMonths gs tx
        = gs ++ [bumpMonth ⟨monthKeyOf tx.date, 0, 0, 0, monthSortKey tx.date⟩ tx] := by
  intro gs
  induction gs with
  | nil => intro _; rfl
  | cons r0 rest ih =>
    intro hall
    unfold addToMonths
    rw [if_neg (hall r0 (List.mem_cons_self _ _))]
    rw [ih (fun r hr => hall r (List.mem_cons_of_mem _ hr))]
    rfl

theorem addToMonths_match_keys (tx : Transaction) :
    ∀ (gs : List MonthAgg), (∃ r ∈ gs, r.month = monthKeyOf tx.date) →
      (addToMonths gs tx).map (fun r => r.month) = gs.map (fun r => r.month) := by
  intro gs
  induction gs with
  | nil => intro h; obtain ⟨r, hr, _⟩ := h; exact absurd hr (List.not_mem_nil r)
  | cons r0 rest ih =>
    intro h
    unfold addToMonths
    by_cases h0 : r0.month = monthKeyOf tx.date
    · rw [if_pos h0]
      simp [bumpMonth_month]
    · rw [if_neg h0]
      obtain ⟨r, hr, hrk⟩ := h
      rcases List.mem_cons.mp hr with h2 | h2
      · subst h2; exact absurd hrk h0
      · simp only [List.map_cons]
        rw [ih ⟨r, h2, hrk⟩]

theorem monthBuckets_nodup_keys (l : List Transaction) :
    ((monthBuckets l).map (fun r => r.month)).Pairwise (fun a b => a ≠ b) := by
  induction l using List.reverseRecOn with
  | nil => exact List.Pairwise.nil
  | append_singleton l t ih =>
    rw [monthBuckets_append_single]
    by_cases hmatch : ∃ r ∈ monthBuckets l, r.month = monthKeyOf t.date
    · rw [addToMonths_match_keys t _ hmatch]
      exact ih
    · have hall : ∀ r ∈ monthBuckets l, r.month ≠ monthKeyOf t.date := by
        intro r hr hc
        exact hmatch ⟨r, hr, hc⟩
      rw [addToMonths_no_match t _ hall, List.map_append]
      rw [List.pairwise_append]
      refine ⟨ih, by simp, ?_⟩
      intro a ha b hb
      simp only [List.map_cons, List.map_nil, List.mem_singleton] at hb
      rw [List.mem_map] at ha
      obtain ⟨r, hr, hrk⟩ := ha
      rw [hb, bumpMonth_month]
      rw [← hrk]
      exact hall r hr

theorem monthBuckets_keys_mem (l : List Transaction) (k : MonthKey) :
    (k ∈ (monthBuckets l).map (fun r => r.month))
      ↔ ∃ t ∈ l, monthKeyOf t.date = k := by
  induction l using List.reverseRecOn with
  | nil => simp [monthBuckets]
  | append_singleton l t ih =>
    rw [monthBuckets_append_single]
    by_cases hmatch : ∃ r ∈ monthBuckets l, r.month = monthKeyOf t.date
    · rw [addToMonths_match_keys t _ hmatch, ih]
      constructor
      · intro ⟨t2, ht2, hk2⟩
        exact ⟨t2, List.mem_append_left _ ht2, hk2⟩
      · intro ⟨t2, ht2, hk2⟩
        rcases List.mem_append.mp ht2 with h2 | h2
        · exact ⟨t2, h2, hk2⟩
        · rw [List.mem_singleton] at h2
          subst h2
          obtain ⟨r, hr, hrk⟩ := hmatch
          exact ih.mp (by
            rw [← hk2, ← hrk]
            exact List.mem_map_of_mem _ hr)
    · have hall : ∀ r ∈ monthBuckets l, r.month ≠ monthKeyOf t.date := by
        intro r hr hc
        exact hmatch ⟨r, hr, hc⟩
      rw [addToMonths_no_match t _ hall, List.map_append]
      simp only [List.map_cons, List.map_nil, bumpMonth_month, List.mem_append,
        List.mem_singleton]
      rw [ih]
      constructor
      · intro h
        rcases h with ⟨t2, ht2, hk2⟩ | hk
        · exact ⟨t2, Or.inl ht2, hk2⟩
        · exact ⟨t, Or.inr rfl, hk.symm⟩
      · intro ⟨t2, ht2, hk2⟩
        rcases ht2 with h2 | h2
        · exact Or.inl ⟨t2, h2, hk2⟩
        · subst h2
          exact Or.inr hk2.symm

theorem totalBalance_append (l1 l2 : List Transaction) :
    totalBalance (l1 ++ l2) = totalBalance l1 + totalBalance l2 := by
  rw [totalBalance_eq_sum, totalBalance_eq_sum, totalBalance_eq_sum]
  simp

theorem totalIncome_single (t : Transaction) :
    totalIncome [t] = (if t.type = TransactionType.INCOME then t.amount else 0) := by
  rw [totalIncome_cons]
  simp [totalIncome]

theorem totalExpense_single (t : Transaction) :
    totalExpense [t] = (if t.type = TransactionType.EXPENSE then t.amount else 0) := by
  rw [totalExpense_cons]
  simp [totalExpense]

theorem totalBalance_single (t : Transaction) : totalBalance [t] = signedAmount t := by
  rw [totalBalance_cons]
  simp [totalBalance]

theorem addToMonths_mem_cases (tx : Transaction) :
    ∀ (gs : List MonthAgg), ((gs.map (fun r => r.month)).Pairwise (fun a b => a ≠ b)) →
      ∀ r ∈ addToMonths gs tx,
        (r ∈ gs ∧ r.month ≠ monthKeyOf tx.date) ∨
        (∃ r0 ∈ gs, r0.month = monthKeyOf tx.date ∧ r = bumpMonth r0 tx) ∨
        ((∀ r0 ∈ gs, r0.month ≠ monthKeyOf tx.date) ∧
          r = bumpMonth ⟨monthKeyOf tx.date, 0, 0, 0, monthSortKey tx.date⟩ tx) := by
  intro gs
  induction gs with
  | nil =>
    intro _ r hr
    simp only [addToMonths, List.mem_singleton] at hr
    exact Or.inr (Or.inr ⟨by simp, hr⟩)
  | cons r0 rest ih =>
    intro hnd r hr
    rw [List.map_cons, List.pairwise_cons] at hnd
    unfold addToMonths at hr
    by_cases h0 : r0.month = monthKeyOf tx.date
    · rw [if_pos h0] at hr
      rcases List.mem_cons.mp hr with h2 | h2
      · exact Or.inr (Or.inl ⟨r0, List.mem_cons_self _ _, h0, h2⟩)
      · refine Or.inl ⟨List.mem_cons_of_mem _ h2, ?_⟩
        intro hc
        exact hnd.1 r.month (List.mem_map_of_mem _ h2) (by rw [hc, h0])
    · rw [if_neg h0] at hr
      rcases List.mem_cons.mp hr with h2 | h2
      · subst h2
        exact Or.inl ⟨List.mem_cons_self _ _, h0⟩
      · rcases ih hnd.2 r h2 with ⟨hmem, hne⟩ | ⟨r1, hr1, hk1, heq⟩ | ⟨hall, heq⟩
        · exact Or.inl ⟨List.mem_cons_of_mem _ hmem, hne⟩
        · exact Or.inr (Or.inl ⟨r1, List.mem_cons_of_mem _ hr1, hk1, heq⟩)
        · refine Or.inr (Or.inr ⟨?_, heq⟩)
          intro r1 hr1
          rcases List.mem_cons.mp hr1 with h3 | h3
          · subst h3; exact h0
          · exact hall r1 h3

/-- The invariant each month row satisfies: the three amounts are the
by-type totals of the transactions sharing the row's label, and the sort
key is the first-of-month instant of one of them. -/
def MonthOK (l : List Transaction) (r : MonthAgg) : Prop :=
  r.income = totalIncome (l.filter (fun t => monthKeyOf t.date = r.month)) ∧
  r.expense = totalExpense (l.filter (fun t => monthKeyOf t.date = r.month)) ∧
  r.surplus = totalBalance (l.filter (fun t => monthKeyOf t.date = r.month)) ∧
  ∃ t ∈ l, monthKeyOf t.date = r.month ∧ r.sortKey = monthSortKey t.date

theorem monthBuckets_content (l : List Transaction) : ∀ r ∈ monthBuckets l, MonthOK l r := by
  induction l using List.reverseRecOn with
  | nil => intro r hr; exact absurd hr (List.not_mem_nil r)
  | append_singleton l t ih =>
    intro r hr
    rw [monthBuckets_append_single] at hr
    rcases addToMonths_mem_cases t (monthBuckets l) (monthBuckets_nodup_keys l) r hr with
      ⟨hmem, hne⟩ | ⟨r0, hr0, hkey, heq⟩ | ⟨hall, heq⟩
    · obtain ⟨hi, he, hs, t0, ht0, hk0, hsk0⟩ := ih r hmem
      have hfil : (l ++ [t]).filter (fun t2 => monthKeyOf t2.date = r.month)
          = l.filter (fun t2 => monthKeyOf t2.date = r.month) := by
        rw [List.filter_append]
        have : [t].filter (fun t2 => monthKeyOf t2.date = r.month) = [] := by
          simp [Ne.symm hne]
        rw [this, List.append_nil]
      exact ⟨by rw [hfil]; exact hi, by rw [hfil]; exact he, by rw [hfil]; exact hs,
        t0, List.mem_append_left _ ht0, hk0, hsk0⟩
    · obtain ⟨hi, he, hs, t0, ht0, hk0, hsk0⟩ := ih r0 hr0
      have hmon : r.month = r0.month := by rw [heq, bumpMonth_month]
      have hfil : (l ++ [t]).filter (fun t2 => monthKeyOf t2.date = r.month)
          = l.filter (fun t2 => monthKeyOf t2.date = r.month) ++ [t] := by
        rw [List.filter_append]
        have : [t].filter (fun t2 => monthKeyOf t2.date = r.month) = [t] := by
          simp [hmon, hkey]
        rw [this]
      refine ⟨?_, ?_, ?_, t0, List.mem_append_left _ ht0, by rw [hmon]; exact hk0, ?_⟩
      · rw [hfil, totalIncome_append, totalIncome_single, hmon, ← hi, heq]
        unfold bumpMonth
        by_cases ht : t.type = TransactionType.INCOME <;> simp [ht]
      · rw [hfil, totalExpense_append, totalExpense_single, hmon, ← he, heq]
        unfold bumpMonth
        cases htt : t.type with
        | EXPENSE => simp [htt]
        | INCOME => simp [htt]
      · rw [hfil, totalBalance_append, totalBalance_single, hmon, ← hs, heq]
        unfold bumpMonth signedAmount
        cases htt : t.type with
        | EXPENSE => simp [htt]; ring
        | INCOME => simp [htt]
      · rw [heq, bumpMonth_sortKey]
        exact hsk0
    · have hmon : r.month = monthKeyOf t.date := by rw [heq, bumpMonth_month]
      have hnol : ∀ t0 ∈ l, ¬ (monthKeyOf t0.date = monthKeyOf t.date) := by
        intro t0 ht0 hc
        have hmem2 : monthKeyOf t.date ∈ (monthBuckets l).map (fun r2 => r2.month) :=
          (monthBuckets_keys_mem l _).mpr ⟨t0, ht0, hc⟩
        rw [List.mem_map] at hmem2
        obtain ⟨r2, hr2, hr2k⟩ := hmem2
        exact hall r2 hr2 hr2k
      have hfil : (l ++ [t]).filter (fun t2 => monthKeyOf t2.date = r.month) = [t] := by
        rw [List.filter_append]
        have h1 : l.filter (fun t2 => monthKeyOf t2.date = r.month) = [] := by
          rw [List.filter_eq_nil_iff]
          intro t0 ht0
          simp only [decide_eq_true_eq]
          rw [hmon]
          exact hnol t0 ht0
        have h2 : [t].filter (fun t2 => monthKeyOf t2.date = r.month) = [t] := by
          simp [hmon]
        rw [h1, h2, List.nil_append]
      refine ⟨?_, ?_, ?_, t, List.mem_append_right _ (List.mem_singleton_self _), hmon.symm, ?_⟩
      · rw [hfil, totalIncome_single, heq]
        unfold bumpMonth
        by_cases ht : t.type = TransactionType.INCOME <;> simp [ht]
      · rw [hfil, totalExpense_single, heq]
        unfold bumpMonth
        cases htt : t.type with
        | EXPENSE => simp [htt]
        | INCOME => simp [htt]
      · rw [hfil, totalBalance_single, heq]
        unfold bumpMonth signedAmount
        cases htt : t.type with
        | EXPENSE => simp [htt]
        | INCOME => simp [htt]
      · rw [heq, bumpMonth_sortKey]

theorem MonthAgg.eq_of_fields {r1 r2 : MonthAgg} (h1 : r1.month = r2.month)
    (h2 : r1.income = r2.income) (h3 : r1.expense = r2.expense)
    (h4 : r1.surplus = r2.surplus) (h5 : r1.sortKey = r2.sortKey) : r1 = r2 := by
  cases r1
  cases r2
  simp_all

theorem totalIncome_perm {l1 l2 : List Transaction} (h : l1.Perm l2) :
    totalIncome l1 = totalIncome l2 := by
  rw [totalIncome_eq_sum, totalIncome_eq_sum]
  exact ((h.filter _).map _).sum_eq

theorem totalExpense_perm {l1 l2 : List Transaction} (h : l1.Perm l2) :
    totalExpense l1 = totalExpense l2 := by
  rw [totalExpense_eq_sum, totalExpense_eq_sum]
  exact ((h.filter _).map _).sum_eq

theorem totalBalance_perm {l1 l2 : List Transaction} (h : l1.Perm l2) :
    totalBalance l1 = totalBalance l2 := by
  rw [totalBalance_eq_sum, totalBalance_eq_sum]
  exact (h.map _).sum_eq

theorem monthSortKey_eq {d1 d2 : LocalDate} (h : monthSortKey d1 = monthSortKey d2) :
    d1.year = d2.year ∧ d1.month = d2.month := by
  unfold monthSortKey at h
  have h1 : d1.month.val < 12 := d1.month.isLt
  have h2 : d2.month.val < 12 := d2.month.isLt
  have hy : d1.year = d2.year := by omega
  have hm : d1.month.val = d2.month.val := by omega
  exact ⟨hy, Fin.ext hm⟩

theorem monthSortKey_key {d1 d2 : LocalDate} (h : monthSortKey d1 = monthSortKey d2) :
    monthKeyOf d1 = monthKeyOf d2 := by
  obtain ⟨hy, hm⟩ := monthSortKey_eq h
  unfold monthKeyOf
  rw [hy, hm]

/-- The hypothesis under which month labels are unambiguous: no two
transactions of distinct calendar months share a label.  Two months
collide exactly when they have the same month index and their years are
congruent mod 100 (e.g. Oct 1923 and Oct 2023 are both "Oct 23"). -/
def monthKeyInj (l : List Transaction) : Prop :=
  ∀ t1 ∈ l, ∀ t2 ∈ l, monthKeyOf t1.date = monthKeyOf t2.date →
    t1.date.year = t2.date.year ∧ t1.date.month = t2.date.month

theorem monthBuckets_mem_of_perm {l1 l2 : List Transaction} (hinj : monthKeyInj l1)
    (hperm : l1.Perm l2) {r : MonthAgg} (hr : r ∈ monthBuckets l1) : r ∈ monthBuckets l2 := by
  obtain ⟨hi, he, hs, t0, ht0, hk0, hsk0⟩ := monthBuckets_content l1 r hr
  have hkey2 : r.month ∈ (monthBuckets l2).map (fun r2 => r2.month) :=
    (monthBuckets_keys_mem l2 _).mpr ⟨t0, hperm.mem_iff.mp ht0, hk0⟩
  rw [List.mem_map] at hkey2
  obtain ⟨r2, hr2, hk2⟩ := hkey2
  obtain ⟨hi2, he2, hs2, t3, ht3, hk3, hsk3⟩ := monthBuckets_content l2 r2 hr2
  rw [hk2] at hi2 he2 hs2 hk3
  have hfil : (l1.filter (fun t => monthKeyOf t.date = r.month)).Perm
      (l2.filter (fun t => monthKeyOf t.date = r.month)) := hperm.filter _
  have ht3mem : t3 ∈ l1 := hperm.mem_iff.mpr ht3
  have hkk : monthKeyOf t0.date = monthKeyOf t3.date := by rw [hk0, hk3]
  obtain ⟨hy, hm⟩ := hinj t0 ht0 t3 ht3mem hkk
  have hreq : r = r2 := by
    refine MonthAgg.eq_of_fields hk2.symm ?_ ?_ ?_ ?_
    · rw [hi, hi2]
      exact totalIncome_perm hfil
    · rw [he, he2]
      exact totalExpense_perm hfil
    · rw [hs, hs2]
      exact totalBalance_perm hfil
    · rw [hsk0, hsk3]
      unfold monthSortKey
      rw [hy, hm]
  rw [hreq]
  exact hr2

theorem monthBuckets_nodup (l : List Transaction) : (monthBuckets l).Nodup := by
  have h := monthBuckets_nodup_keys l
  rw [List.pairwise_map] at h
  exact h.imp (fun hne hab => hne (congrArg _ hab))

theorem monthBuckets_perm {l1 l2 : List Transaction} (hinj : monthKeyInj l1)
    (hperm : l1.Perm l2) : (monthBuckets l1).Perm (monthBuckets l2) := by
  have hinj2 : monthKeyInj l2 := fun t1 h1 t2 h2 hk =>
    hinj t1 (hperm.mem_iff.mpr h1) t2 (hperm.mem_iff.mpr h2) hk
  rw [List.perm_ext_iff_of_nodup (monthBuckets_nodup l1) (monthBuckets_nodup l2)]
  intro r
  exact ⟨monthBuckets_mem_of_perm hinj hperm, monthBuckets_mem_of_perm hinj2 hperm.symm⟩

theorem monthlyData_pairwise_ne_month (l : List Transaction) :
    (monthlyData l).Pairwise (fun a b => a.month ≠ b.month) := by
  have h := monthBuckets_nodup_keys l
  rw [List.pairwise_map] at h
  exact ((List.perm_insertionSort monthSortLE (monthBuckets l)).pairwise_iff
    (fun hxy => Ne.symm hxy)).mpr h

theorem monthlyData_sorted_strict (l : List Transaction) :
    (monthlyData l).Pairwise (fun a b => a.sortKey < b.sortKey) := by
  have hle : (monthlyData l).Pairwise monthSortLE :=
    List.sorted_insertionSort monthSortLE (monthBuckets l)
  have hcomb := hle.and (monthlyData_pairwise_ne_month l)
  refine hcomb.imp_of_mem ?_
  intro a b ha hb hr
  obtain ⟨hle2, hnem⟩ := hr
  have hamem : a ∈ monthBuckets l := (List.mem_insertionSort _).mp ha
  have hbmem : b ∈ monthBuckets l := (List.mem_insertionSort _).mp hb
  obtain ⟨_, _, _, ta, _, hka, hska⟩ := monthBuckets_content l a hamem
  obtain ⟨_, _, _, tb, _, hkb, hskb⟩ := monthBuckets_content l b hbmem
  refine Nat.lt_of_le_of_ne hle2 ?_
  intro hc
  apply hnem
  rw [← hka, ← hkb]
  exact monthSortKey_key (by rw [← hska, ← hskb]; exact hc)

/-- C6 (amended): provided no two transactions of distinct calendar
months share a month label (`monthKeyInj` - labels collide only for
months whose years differ by a multiple of 100), `monthlyData` is
independent of the input order of the transactions, its rows are ordered
strictly ascending by the first-of-month instant, each row carries the
income sum, expense sum and surplus of the transactions bearing its
short-month two-digit-year label, and every transaction's month is
represented by a row.  (Without the hypothesis the claim is false: see
the century-collision counterexample.) -/
theorem monthlyData_correct (l l2 : List Transaction) (hinj : monthKeyInj l)
    (hperm : l.Perm l2) :
    monthlyData l2 = monthlyData l ∧
    (monthlyData l).Pairwise (fun a b => a.sortKey < b.sortKey) ∧
    (∀ r ∈ monthlyData l, MonthOK l r) ∧
    (∀ t ∈ l, ∃ r ∈ monthlyData l, r.month = monthKeyOf t.date) := by
  refine ⟨?_, monthlyData_sorted_strict l, ?_, ?_⟩
  · haveI : IsAntisymm MonthAgg (fun a b => a.sortKey < b.sortKey) :=
      ⟨fun a b h1 h2 => absurd (Nat.lt_trans h1 h2) (Nat.lt_irrefl _)⟩
    refine List.eq_of_perm_of_sorted ?_ (monthlyData_sorted_strict l2)
      (monthlyData_sorted_strict l)
    exact (List.perm_insertionSort _ _).trans
      ((monthBuckets_perm hinj hperm).symm.trans (List.perm_insertionSort _ _).symm)
  · intro r hr
    exact monthBuckets_content l r ((List.mem_insertionSort _).mp hr)
  · intro t ht
    have hmem : monthKeyOf t.date ∈ (monthBuckets l).map (fun r => r.month) :=
      (monthBuckets_keys_mem l _).mpr ⟨t, ht, rfl⟩
    rw [List.mem_map] at hmem
    obtain ⟨r, hrm, hrk⟩ := hmem
    exact ⟨r, (List.mem_insertionSort _).mpr hrm, hrk⟩

/-- An October 1923 expense; its label "Oct 23" collides with October
2023. -/
def ctOct1923 : Transaction := ⟨"x", 5, "food", ⟨1923, 9, 10, 0⟩, "", .EXPENSE⟩

/-- An October 2023 income, labelled "Oct 23" as well. -/
def ctOct2023 : Transaction := ⟨"y", 7, "salary", ⟨2023, 9, 10, 0⟩, "", .INCOME⟩

/-- A November 1923 expense, labelled "Nov 23". -/
def ctNov1923 : Transaction := ⟨"z", 1, "food", ⟨1923, 10, 5, 0⟩, "", .EXPENSE⟩

/-- C6 counterexample: with the century label collision "Oct 23"
(October 1923 vs October 2023), the output of `monthlyData` depends on
the input order - the merged "Oct 23" row inherits the sort key of
whichever transaction came first, so reordering the same three
transactions swaps the "Oct 23" and "Nov 23" rows. -/
theorem monthlyData_century_label_collision :
    ([ctOct1923, ctOct2023, ctNov1923].Perm [ctOct2023, ctOct1923, ctNov1923]) ∧
    (monthlyData [ctOct1923, ctOct2023, ctNov1923]).map (fun r => r.month)
      ≠ (monthlyData [ctOct2023, ctOct1923, ctNov1923]).map (fun r => r.month) := by
  constructor
  · exact List.Perm.swap ctOct2023 ctOct1923 [ctNov1923]
  · decide

/-- C6 witness: the amended theorem applied to two concrete permutations
of a label-unambiguous list. -/
theorem monthlyData_correct_witness :
    monthlyData [exT3, exT1] = monthlyData [exT1, exT3] ∧
    (monthlyData [exT1, exT3]).Pairwise (fun a b => a.sortKey < b.sortKey) := by
  have h := monthlyData_correct [exT1, exT3] [exT3, exT1]
    (by unfold monthKeyInj; decide) (List.Perm.swap exT3 exT1 [])
  exact ⟨h.1, h.2.1⟩
